import Mathlib

/-!
# Tag-a-widget: Tag Registry & Node-Tag Synchronization Engine

A shallow embedding of the tag-management core of the repository:
the MVP plugin (`fig_jam_tagger_plugin_mvp.ts`, `code.ts` section), the
sandbox-side controller (`src/unnamed/part_000`), the React view
components (`TagManager.tsx`, `CompactTagManager.tsx`, `SelectionTagger`)
and the CSV export codec (`plugin-storage.ts`).

JavaScript objects used as string-keyed maps (`TagRegistry`) are embedded
as association lists in key-insertion order, mirroring JS object key
ordering: assignment to an existing key updates in place, assignment to a
fresh key appends, `delete` removes.  Object spread `{...a, ...b}` on tag
metadata is per-field right-bias (`b`'s field wins when present).
JS `Set` iteration order (insertion order, first occurrence kept) and
`Array.prototype.sort()` (lexicographic) are embedded explicitly below.
-/

/-- `TagMeta` from `code.ts` / `types.ts`: `{ color?: string; emoji?: string }`.
An absent optional field is `none`. -/
structure TagMeta where
  color : Option String := none
  emoji : Option String := none
deriving DecidableEq, Repr

/-- `TagRegistry`: a JS object mapping tag name to metadata, embedded as an
association list in key-insertion order. -/
abbrev Registry := List (String × TagMeta)

/-- JS object spread `{...a, ...b}` on two `TagMeta` values: a field of `b`
wins whenever `b` has it set. -/
def spreadMeta (a b : TagMeta) : TagMeta :=
  { color := b.color.orElse (fun _ => a.color),
    emoji := b.emoji.orElse (fun _ => a.emoji) }

/-- JS property read `reg[k]`: the value stored at key `k`, if present. -/
def regGet (reg : Registry) (k : String) : Option TagMeta :=
  (reg.find? (fun p => p.1 == k)).map (fun p => p.2)

/-- JS property write `reg[k] = v`: update in place when the key exists,
append at the end otherwise (JS key-insertion order). -/
def regSet (reg : Registry) (k : String) (v : TagMeta) : Registry :=
  if reg.any (fun p => p.1 == k) then
    reg.map (fun p => if p.1 == k then (k, v) else p)
  else
    reg ++ [(k, v)]

/-- JS `delete reg[k]`. -/
def regDelete (reg : Registry) (k : String) : Registry :=
  reg.filter (fun p => !(p.1 == k))

/-- Helper for `jsSetDedup`: `seen` holds the elements already emitted. -/
def jsSetDedupAux (seen : List String) : List String → List String
  | [] => []
  | x :: xs =>
    if x ∈ seen then jsSetDedupAux seen xs
    else x :: jsSetDedupAux (x :: seen) xs

/-- JS `[...new Set(xs)]`: deduplicate keeping the first occurrence of each
element, preserving insertion order. -/
def jsSetDedup (l : List String) : List String :=
  jsSetDedupAux [] l

/-- Lexicographic comparison of character lists by code point, the order in
which JS `Array.prototype.sort()` compares strings. -/
def lexLeL : List Char → List Char → Bool
  | [], _ => true
  | _ :: _, [] => false
  | a :: as, b :: bs =>
    if a.toNat = b.toNat then lexLeL as bs else decide (a.toNat < b.toNat)

/-- `s` precedes-or-equals `t` in the string order used by JS `sort()`. -/
def lexLe (s t : String) : Bool :=
  lexLeL s.data t.data

/-- The propositional form of `lexLe`: the order in which JS `sort()`
arranges tag names, ascending. -/
def tagLe (a b : String) : Prop :=
  lexLe a b = true

instance : DecidableRel tagLe :=
  fun a b => inferInstanceAs (Decidable (lexLe a b = true))

/-- JS `Array.prototype.sort()` on an array of strings: lexicographic
ascending order. -/
def sortTags (l : List String) : List String :=
  l.insertionSort tagLe

/-- `setNodeTags` (`code.ts` line 78) stores
`JSON.stringify([...new Set(tags)].sort())`: the stored tag list is the
deduplicated, lexicographically sorted normal form of its argument. -/
def setNodeTags (tags : List String) : List String :=
  sortTags (jsSetDedup tags)

-- Sanity checks on the JS-semantics embedding.
example : jsSetDedup ["b", "a", "b"] = ["b", "a"] := by decide
example : setNodeTags ["b", "a", "b"] = ["a", "b"] := by decide
example : regSet [("a", {})] "a" ⟨some "red", none⟩ = [("a", ⟨some "red", none⟩)] := by decide
example : regSet [("a", {})] "b" {} = [("a", {}), ("b", {})] := by decide
example : spreadMeta ⟨some "red", none⟩ ⟨some "blue", none⟩ = ⟨some "blue", none⟩ := by decide

/-- The controller's durable state: the document-level tag registry plus the
per-node tag lists (node id paired with the stored tag array), in document
order.  `index` plays the role of the plugin-data reads `getNodeTags` /
writes `setNodeTags` performed across `figma.currentPage`. -/
structure PluginState where
  registry : Registry
  index : List (String × List String)
deriving DecidableEq, Repr

/-- `ensureTagInRegistry(tag, meta?)` (`code.ts` lines 164-169): insert an
empty entry when `tag` is absent, then spread the provided `meta` (if any)
over the entry.  It never reports a failure. -/
def ensureTagInRegistry (reg : Registry) (tag : String) (meta : Option TagMeta) :
    Registry :=
  let reg1 := if (regGet reg tag).isSome then reg else regSet reg tag {}
  match meta with
  | some m => regSet reg1 tag (spreadMeta ((regGet reg1 tag).getD {}) m)
  | none => reg1

/-- Outcome of the React `handleAddTag` click handler: the registry passed to
`onRegistryChange` (unchanged when no change was made) and whether
`toast.error` fired. -/
structure AddOutcome where
  registry : Registry
  error : Bool
deriving DecidableEq, Repr

/-- Whitespace stripped by JS `String.prototype.trim()` (the common ASCII
subset; the exotic Unicode space classes never arise in the claims). -/
def isWsChar (c : Char) : Bool :=
  c = ' ' || c = '\t' || c = '\n' || c = '\r' || c = '\x0b' || c = '\x0c'

/-- JS `s.trim()`: strip leading and trailing whitespace. -/
def jsTrim (s : String) : String :=
  ⟨((s.data.dropWhile isWsChar).reverse.dropWhile isWsChar).reverse⟩

/-- The metadata object built by `handleAddTag` (`TagManager.tsx` lines
45-47 / `CompactTagManager.tsx` lines 49-51): `emoji` only when the trimmed
emoji input is nonempty, `color` only when the picker moved off the default
`#9ca3af`. -/
def metaOfInputs (newEmoji newColor : String) : TagMeta :=
  { color := if newColor = "#9ca3af" then none else some newColor,
    emoji := if jsTrim newEmoji = "" then none else some (jsTrim newEmoji) }

/-- `handleAddTag` (`TagManager.tsx` lines 36-58, identical in
`CompactTagManager.tsx` lines 40-62): empty trimmed name is ignored; an
existing name raises the `Tag already exists` error and changes nothing;
otherwise the new entry is inserted via `{...registry, [trimmedTag]: meta}`. -/
def handleAddTag (reg : Registry) (newTag newEmoji newColor : String) : AddOutcome :=
  let trimmedTag := jsTrim newTag
  if trimmedTag = "" then ⟨reg, false⟩
  else if (regGet reg trimmedTag).isSome then ⟨reg, true⟩
  else ⟨regSet reg trimmedTag (metaOfInputs newEmoji newColor), false⟩

/-- Registry half of `mergeTags` (`code.ts` lines 124-133): for each `f` in
`fromList` with an entry, `reg[into] = {...(reg[into] || {}), ...reg[f]}`
then `delete reg[f]` — the source entry's fields overwrite `into`'s, and
`into` is not excluded from `fromList`. -/
def mergeTagsReg (reg : Registry) (into : String) (fromList : List String) :
    Registry :=
  fromList.foldl
    (fun r f =>
      match regGet r f with
      | some mf => regDelete (regSet r into (spreadMeta ((regGet r into).getD {}) mf)) f
      | none => r)
    reg

/-- Node half of `mergeTags` (`code.ts` lines 135-144) on one node that holds
at least one `fromList` tag: build `new Set(tags)`, delete every `fromList`
member, `add(into)`, and store through `setNodeTags`. -/
def mergeNodeTags (into : String) (fromList : List String) (tags : List String) :
    List String :=
  let s := (jsSetDedup tags).filter (fun x => !(fromList.contains x))
  setNodeTags (if into ∈ s then s else s ++ [into])

/-- `mergeTags(into, fromList)` (`code.ts` lines 124-146): fold registry
entries, then update every node holding any `fromList` tag; returns the
count of nodes touched. -/
def mergeTags (st : PluginState) (into : String) (fromList : List String) :
    PluginState × Nat :=
  let hit : List String → Bool := fun tags => fromList.any (fun f => tags.contains f)
  (⟨mergeTagsReg st.registry into fromList,
    st.index.map (fun e => if hit e.2 then (e.1, mergeNodeTags into fromList e.2) else e)⟩,
   (st.index.filter (fun e => hit e.2)).length)

/-- Registry merge of `handleMergeTags` (`TagManager.tsx` lines 100-112):
ensure `into` exists, then for each source `fromTag` present and different
from `into`, `newRegistry[intoTag] = {...newRegistry[fromTag],
...newRegistry[intoTag]}` (destination wins) and delete the source. -/
def handleMergeTagsReg (reg : Registry) (into : String) (fromTags : List String) :
    Registry :=
  let reg0 := if (regGet reg into).isSome then reg else regSet reg into {}
  fromTags.foldl
    (fun r f =>
      if (regGet r f).isSome && !(f == into) then
        regDelete (regSet r into (spreadMeta ((regGet r f).getD {}) ((regGet r into).getD {}))) f
      else r)
    reg0

/-- Per-node tag rewrite of `renameTagEverywhere` (`code.ts` lines 116-120):
`getNodeTags(n).map(t => (t === from ? to : t))` stored through
`setNodeTags`. -/
def renameNodeTags (f t : String) (tags : List String) : List String :=
  setNodeTags (tags.map (fun x => if x = f then t else x))

/-- `renameTagEverywhere(from, to)` (`code.ts` lines 107-122): when `from`
has a registry entry, `reg[to] = {...(reg[to] || {}), ...(reg[from] || {})}`
then `delete reg[from]`; every node whose tags include `from` is rewritten
via `renameNodeTags`.  Returns the count of nodes touched. -/
def renameTagEverywhere (st : PluginState) (f t : String) : PluginState × Nat :=
  let reg1 :=
    match regGet st.registry f with
    | some mf => regDelete (regSet st.registry t (spreadMeta ((regGet st.registry t).getD {}) mf)) f
    | none => st.registry
  (⟨reg1,
    st.index.map (fun e => if e.2.contains f then (e.1, renameNodeTags f t e.2) else e)⟩,
   (st.index.filter (fun e => e.2.contains f)).length)

/-- Per-node strip of the `delete-tag` message case (`code.ts` lines
197-198): a node whose tags include the tag is rewritten via
`setNodeTags(n, getNodeTags(n).filter(t => t !== msg.tag))`; other nodes
are left untouched. -/
def stripTagEntry (t : String) (e : String × List String) : String × List String :=
  if e.2.contains t then (e.1, setNodeTags (e.2.filter (fun x => !(x == t)))) else e

/-- The `delete-tag` message case (`code.ts` lines 192-201): `delete
reg[msg.tag]`, then strip the tag from every node referencing it. -/
def deleteTagMsg (st : PluginState) (t : String) : PluginState :=
  ⟨regDelete st.registry t, st.index.map (stripTagEntry t)⟩

/-- Per-node update of `addTagsToSelection` (`code.ts` line 87-88):
`[...new Set([...current, ...tags])]` stored through `setNodeTags`. -/
def addNodeTags (tags cur : List String) : List String :=
  setNodeTags (jsSetDedup (cur ++ tags))

/-- Per-node update of `removeTagsFromSelection` (`code.ts` lines 99-101):
`current.filter(t => !tags.includes(t))` stored through `setNodeTags`. -/
def removeNodeTags (tags cur : List String) : List String :=
  setNodeTags (cur.filter (fun x => !(tags.contains x)))

/-- `addTagsToSelection(tags)` (`code.ts` lines 81-92) over the selected
nodes (id paired with current tags): returns the updated nodes and the
`updated` counter, incremented once per selected node. -/
def addTagsToSelection (sel : List (String × List String)) (tags : List String) :
    List (String × List String) × Nat :=
  if sel.isEmpty then (sel, 0)
  else (sel.map (fun e => (e.1, addNodeTags tags e.2)), sel.length)

/-- `removeTagsFromSelection(tags)` (`code.ts` lines 94-105), analogous. -/
def removeTagsFromSelection (sel : List (String × List String)) (tags : List String) :
    List (String × List String) × Nat :=
  if sel.isEmpty then (sel, 0)
  else (sel.map (fun e => (e.1, removeNodeTags tags e.2)), sel.length)

/-- The `add` branch of `handleBulkTagOperation` (`SelectionTagger`,
`src/unnamed/part_003` line 57): `[...new Set([...node.tags, ...tags])]`,
deduplicated but not sorted. -/
def bulkAddTags (cur tags : List String) : List String :=
  jsSetDedup (cur ++ tags)

/-- `handleSetNodeTags` (`src/unnamed/part_000` lines 83-99) stores
`JSON.stringify(tags)` verbatim into the node's plugin data: no
normalization of any kind is applied to the incoming array. -/
def handleSetNodeTags (tags : List String) : List String :=
  tags

-- Sanity checks against the source behaviour.
example : (addTagsToSelection [("1", ["b"])] ["a"]).1 = [("1", ["a", "b"])] := by decide
example : (removeTagsFromSelection [("1", ["a", "b"])] ["b", "c"]) = ([("1", ["a"])], 1) := by
  decide
example : bulkAddTags ["b"] ["a"] = ["b", "a"] := by decide
example : mergeTagsReg [("a", ⟨some "red", none⟩), ("b", ⟨some "blue", none⟩)] "a" ["b"]
    = [("a", ⟨some "blue", none⟩)] := by decide
example : handleMergeTagsReg [("a", ⟨some "red", none⟩), ("b", ⟨some "blue", none⟩)] "a" ["b"]
    = [("a", ⟨some "red", none⟩)] := by decide

/-- A row of the `NodeRegistry` fed to the CSV exporter
(`plugin-storage.ts`): id, display name, node type, stored tag list. -/
structure CsvNode where
  id : String
  name : String
  type : String
  tags : List String
deriving DecidableEq, Repr

/-- Character-level model of `.replaceAll(doubleQuote, twoDoubleQuotes)`:
every `"` becomes `""`. -/
def escQuotesL : List Char → List Char
  | [] => []
  | c :: cs =>
    if c = '\x22' then '\x22' :: '\x22' :: escQuotesL cs
    else c :: escQuotesL cs

/-- `s.replaceAll using double quotes doubled`, as applied to the `name`
field in `exportToCSV`. -/
def escQuotes (s : String) : String :=
  ⟨escQuotesL s.data⟩

/-- JS `Array.prototype.join(sep)`. -/
def joinSep (sep : String) : List String → String
  | [] => ""
  | [x] => x
  | x :: xs => x ++ sep ++ joinSep sep xs

/-- One data row of `PluginStorageManager.exportToCSV` (`plugin-storage.ts`
lines 101-105): four quoted fields, quote-doubling applied to the name
only, tags joined with a pipe. -/
def csvRow (n : CsvNode) : String :=
  "\"" ++ n.id ++ "\",\"" ++ escQuotes n.name ++ "\",\"" ++ n.type ++ "\",\""
    ++ joinSep "|" n.tags ++ "\""

/-- `PluginStorageManager.exportToCSV` (`plugin-storage.ts` lines 98-108):
header row followed by one `csvRow` per node, joined by newlines. -/
def exportToCSV (nodes : List CsvNode) : String :=
  joinSep "\n" ("nodeId,nodeName,nodeType,tags" :: nodes.map csvRow)

/-- Modelled from the spec: a CSV field quoted "per standard CSV quoting",
with internal double quotes doubled — the treatment the claim asserts for
every free-text field. -/
def csvQuoteSpec (s : String) : String :=
  "\"" ++ escQuotes s ++ "\""

/-- Modelled from the spec: the data row the claim predicts, with standard
CSV quoting applied to all four fields including the joined tag set. -/
def claimRowSpec (n : CsvNode) : String :=
  csvQuoteSpec n.id ++ "," ++ csvQuoteSpec n.name ++ "," ++ csvQuoteSpec n.type ++ ","
    ++ csvQuoteSpec (joinSep "|" n.tags)

-- Sanity check: Scenario D of the spec.
example : exportToCSV [⟨"1", "Say \"hi\"", "text", ["a"]⟩]
    = "nodeId,nodeName,nodeType,tags\n\"1\",\"Say \"\"hi\"\"\",\"text\",\"a\"" := by decide

/-!
## A model of the `JSON.parse` builtin

The loaders under scrutiny in the repository hand their stored blob to the
host's `JSON.parse`.  The builtin is embedded here as a total
recursive-descent parser over the character list, returning `none` exactly
where `JSON.parse` would throw a `SyntaxError` (the model is permissive
about number syntax, which the claims never exercise).  Untyped JS values
produced by parsing are represented by the `Json` inductive; the unchecked
TypeScript casts (`as TagRegistry`, `as TagName[]`) do not inspect the
value, so the loaders below return `Json` verbatim.
-/

/-- An untyped JS value produced by `JSON.parse`. -/
inductive Json where
  | null
  | bool (b : Bool)
  | num (raw : String)
  | str (s : String)
  | arr (elems : List Json)
  | obj (fields : List (String × Json))
deriving Repr

/-- JSON insignificant whitespace. -/
def isJsonWs (c : Char) : Bool :=
  c = ' ' || c = '\t' || c = '\n' || c = '\r'

/-- Skip insignificant whitespace. -/
def skipWs (cs : List Char) : List Char :=
  cs.dropWhile isJsonWs

/-- Single-character JSON string escapes. -/
def escChar : Char → Option Char
  | '\x22' => some '\x22'
  | '\\' => some '\\'
  | '/' => some '/'
  | 'b' => some '\x08'
  | 'f' => some '\x0c'
  | 'n' => some '\n'
  | 'r' => some '\r'
  | 't' => some '\t'
  | _ => none

/-- Value of a hexadecimal digit. -/
def hexVal (c : Char) : Option Nat :=
  if 48 ≤ c.toNat && c.toNat ≤ 57 then some (c.toNat - 48)
  else if 97 ≤ c.toNat && c.toNat ≤ 102 then some (c.toNat - 87)
  else if 65 ≤ c.toNat && c.toNat ≤ 70 then some (c.toNat - 55)
  else none

/-- Parse the body of a JSON string literal (opening quote already
consumed): returns the decoded characters and the remaining input, or
`none` on a malformed literal. -/
def parseStrL : List Char → Option (List Char × List Char)
  | [] => none
  | c :: cs =>
    if c = '\x22' then some ([], cs)
    else if c = '\\' then
      match cs with
      | 'u' :: h1 :: h2 :: h3 :: h4 :: cs3 =>
        match hexVal h1, hexVal h2, hexVal h3, hexVal h4 with
        | some v1, some v2, some v3, some v4 =>
          match parseStrL cs3 with
          | some (s, r) => some (Char.ofNat (4096 * v1 + 256 * v2 + 16 * v3 + v4) :: s, r)
          | none => none
        | _, _, _, _ => none
      | e :: cs2 =>
        match escChar e with
        | some c2 =>
          match parseStrL cs2 with
          | some (s, r) => some (c2 :: s, r)
          | none => none
        | none => none
      | [] => none
    else
      match parseStrL cs with
      | some (s, r) => some (c :: s, r)
      | none => none

/-- Characters that may appear in a JSON number token. -/
def isNumChar (c : Char) : Bool :=
  c.isDigit || c = '-' || c = '+' || c = '.' || c = 'e' || c = 'E'

/-- Parse the comma-separated elements of a nonempty JSON array up to the
closing bracket; `p` parses one value. -/
def parseListAux (p : List Char → Option (Json × List Char)) :
    Nat → List Char → Option (List Json × List Char)
  | 0, _ => none
  | fuel + 1, cs =>
    match p cs with
    | some (v, r) =>
      match skipWs r with
      | ',' :: r2 =>
        match parseListAux p fuel r2 with
        | some (vs, r3) => some (v :: vs, r3)
        | none => none
      | ']' :: r2 => some ([v], r2)
      | _ => none
    | none => none

/-- Parse the comma-separated members of a nonempty JSON object up to the
closing brace; `p` parses one value. -/
def parseFieldsAux (p : List Char → Option (Json × List Char)) :
    Nat → List Char → Option (List (String × Json) × List Char)
  | 0, _ => none
  | fuel + 1, cs =>
    match skipWs cs with
    | '\x22' :: r1 =>
      match parseStrL r1 with
      | some (k, r2) =>
        match skipWs r2 with
        | ':' :: r3 =>
          match p r3 with
          | some (v, r4) =>
            match skipWs r4 with
            | ',' :: r5 =>
              match parseFieldsAux p fuel r5 with
              | some (fs, r6) => some ((⟨k⟩, v) :: fs, r6)
              | none => none
            | '\x7d' :: r5 => some ([(⟨k⟩, v)], r5)
            | _ => none
          | none => none
        | _ => none
      | none => none
    | _ => none

/-- Parse one JSON value; fuel bounds the recursion depth and element
chains, and exceeds any need at `length + 1`. -/
def parseVal : Nat → List Char → Option (Json × List Char)
  | 0, _ => none
  | fuel + 1, cs =>
    match skipWs cs with
    | 'n' :: 'u' :: 'l' :: 'l' :: r => some (Json.null, r)
    | 't' :: 'r' :: 'u' :: 'e' :: r => some (Json.bool true, r)
    | 'f' :: 'a' :: 'l' :: 's' :: 'e' :: r => some (Json.bool false, r)
    | '\x22' :: r =>
      match parseStrL r with
      | some (s, r2) => some (Json.str ⟨s⟩, r2)
      | none => none
    | '[' :: r =>
      match skipWs r with
      | ']' :: r2 => some (Json.arr [], r2)
      | _ =>
        match parseListAux (parseVal fuel) fuel r with
        | some (vs, r2) => some (Json.arr vs, r2)
        | none => none
    | '\x7b' :: r =>
      match skipWs r with
      | '\x7d' :: r2 => some (Json.obj [], r2)
      | _ =>
        match parseFieldsAux (parseVal fuel) fuel r with
        | some (fs, r2) => some (Json.obj fs, r2)
        | none => none
    | c :: r =>
      if c.isDigit || c = '-' then
        let ds := (c :: r).takeWhile isNumChar
        some (Json.num ⟨ds⟩, (c :: r).drop ds.length)
      else none
    | [] => none

/-- The `JSON.parse` builtin: parse one value and require only trailing
whitespace after it; `none` models a thrown `SyntaxError`. -/
def jsonParse (s : String) : Option Json :=
  match parseVal (s.length + 1) s.data with
  | some (v, r) => if (skipWs r).isEmpty then some v else none
  | none => none

/-- `getRegistry` (`code.ts` lines 59-64): empty blob means the empty
registry, and a `JSON.parse` failure is caught and also yields the empty
registry — the function is total. -/
def getRegistry (raw : String) : Json :=
  if raw = "" then Json.obj []
  else
    match jsonParse raw with
    | some v => v
    | none => Json.obj []

/-- `getNodeTags` (`code.ts` lines 71-75): as `getRegistry`, with the empty
array as the fallback. -/
def getNodeTagsMvp (raw : String) : Json :=
  if raw = "" then Json.arr []
  else
    match jsonParse raw with
    | some v => v
    | none => Json.arr []

/-- `getTagRegistry` (`src/unnamed/part_000` lines 156-159):
`registryData ? JSON.parse(registryData) : given empty object` — there is no
`try`/`catch`, so a `SyntaxError` from `JSON.parse` escapes to the caller
(modelled as `Except.error`). -/
def getTagRegistry (raw : String) : Except String Json :=
  if raw = "" then Except.ok (Json.obj [])
  else
    match jsonParse raw with
    | some v => Except.ok v
    | none => Except.error "SyntaxError"

/-- `getNodeTags` (`src/unnamed/part_000` lines 161-164), same unguarded
shape with the empty array default. -/
def getNodeTagsPart0 (raw : String) : Except String Json :=
  if raw = "" then Except.ok (Json.arr [])
  else
    match jsonParse raw with
    | some v => Except.ok v
    | none => Except.error "SyntaxError"

-- Sanity checks for the `JSON.parse` model.
example : jsonParse "\x7b\"a\": 1\x7d" = some (Json.obj [("a", Json.num "1")]) := by rfl
example : jsonParse "\x7b" = none := by rfl
example : jsonParse "[\"a\", \"b\"]" = some (Json.arr [Json.str "a", Json.str "b"]) := by rfl
example : jsonParse "not json" = none := by rfl
example : jsonParse "[\"a\"" = none := by rfl

/-!
## Supporting lemmas
-/

theorem lexLeL_total (a : List Char) : ∀ b, lexLeL a b = true ∨ lexLeL b a = true := by
  induction a with
  | nil => intro b; left; rfl
  | cons x as ih =>
    intro b
    cases b with
    | nil => right; rfl
    | cons y bs =>
      by_cases h : x.toNat = y.toNat
      · have h' : y.toNat = x.toNat := h.symm
        simp only [lexLeL, if_pos h, if_pos h']
        exact ih bs
      · rcases Nat.lt_or_ge x.toNat y.toNat with hlt | hge
        · left
          simp only [lexLeL, if_neg h]
          exact decide_eq_true hlt
        · right
          have hne : y.toNat ≠ x.toNat := fun e => h e.symm
          have hgt : y.toNat < x.toNat := lt_of_le_of_ne hge hne
          simp only [lexLeL, if_neg hne]
          exact decide_eq_true hgt

theorem lexLeL_trans (a : List Char) :
    ∀ b c, lexLeL a b = true → lexLeL b c = true → lexLeL a c = true := by
  induction a with
  | nil => intro b c _ _; rfl
  | cons x as ih =>
    intro b c h1 h2
    cases b with
    | nil => simp [lexLeL] at h1
    | cons y bs =>
      cases c with
      | nil => simp [lexLeL] at h2
      | cons z cs =>
        simp only [lexLeL] at h1 h2 ⊢
        by_cases hxy : x.toNat = y.toNat
        · rw [if_pos hxy] at h1
          by_cases hyz : y.toNat = z.toNat
          · rw [if_pos hyz] at h2
            rw [if_pos (hxy.trans hyz)]
            exact ih bs cs h1 h2
          · rw [if_neg hyz] at h2
            have hlt : x.toNat < z.toNat := hxy ▸ of_decide_eq_true h2
            rw [if_neg (Nat.ne_of_lt hlt)]
            exact decide_eq_true hlt
        · rw [if_neg hxy] at h1
          have h1' : x.toNat < y.toNat := of_decide_eq_true h1
          by_cases hyz : y.toNat = z.toNat
          · have hlt : x.toNat < z.toNat := hyz ▸ h1'
            rw [if_neg (Nat.ne_of_lt hlt)]
            exact decide_eq_true hlt
          · rw [if_neg hyz] at h2
            have hlt : x.toNat < z.toNat := h1'.trans (of_decide_eq_true h2)
            rw [if_neg (Nat.ne_of_lt hlt)]
            exact decide_eq_true hlt

instance : IsTotal String tagLe :=
  ⟨fun a b => lexLeL_total a.data b.data⟩

instance : IsTrans String tagLe :=
  ⟨fun a b c => lexLeL_trans a.data b.data c.data⟩

theorem perm_sortTags (l : List String) : List.Perm (sortTags l) l :=
  List.perm_insertionSort tagLe l

theorem mem_sortTags {a : String} {l : List String} : a ∈ sortTags l ↔ a ∈ l :=
  (perm_sortTags l).mem_iff

theorem sorted_sortTags (l : List String) : List.Sorted tagLe (sortTags l) :=
  List.sorted_insertionSort tagLe l

theorem nodup_sortTags {l : List String} (h : l.Nodup) : (sortTags l).Nodup :=
  (perm_sortTags l).nodup_iff.mpr h

theorem mem_jsSetDedupAux {a : String} :
    ∀ {l seen : List String}, a ∈ jsSetDedupAux seen l ↔ a ∈ l ∧ a ∉ seen := by
  intro l
  induction l with
  | nil => intro seen; simp [jsSetDedupAux]
  | cons x xs ih =>
    intro seen
    simp only [jsSetDedupAux]
    by_cases h : x ∈ seen
    · rw [if_pos h, ih]
      constructor
      · rintro ⟨h1, h2⟩
        exact ⟨List.mem_cons_of_mem _ h1, h2⟩
      · rintro ⟨h1, h2⟩
        rcases List.mem_cons.1 h1 with rfl | h1
        · exact absurd h h2
        · exact ⟨h1, h2⟩
    · rw [if_neg h]
      constructor
      · intro hmem
        rcases List.mem_cons.1 hmem with rfl | hmem
        · exact ⟨List.mem_cons_self _ _, h⟩
        · obtain ⟨h1, h2⟩ := ih.1 hmem
          exact ⟨List.mem_cons_of_mem _ h1, fun hs => h2 (List.mem_cons_of_mem _ hs)⟩
      · rintro ⟨h1, h2⟩
        by_cases hax : a = x
        · subst hax; exact List.mem_cons_self _ _
        · rcases List.mem_cons.1 h1 with rfl | h1
          · exact absurd rfl hax
          · refine List.mem_cons_of_mem _ (ih.2 ⟨h1, fun hmem => ?_⟩)
            rcases List.mem_cons.1 hmem with rfl | hmem
            · exact hax rfl
            · exact h2 hmem

theorem nodup_jsSetDedupAux : ∀ (l seen : List String), (jsSetDedupAux seen l).Nodup := by
  intro l
  induction l with
  | nil => intro seen; exact List.nodup_nil
  | cons x xs ih =>
    intro seen
    simp only [jsSetDedupAux]
    by_cases h : x ∈ seen
    · rw [if_pos h]; exact ih seen
    · rw [if_neg h]
      refine List.nodup_cons.2 ⟨fun hmem => ?_, ih (x :: seen)⟩
      exact (mem_jsSetDedupAux.1 hmem).2 (List.mem_cons_self x seen)

theorem mem_jsSetDedup {a : String} {l : List String} : a ∈ jsSetDedup l ↔ a ∈ l := by
  unfold jsSetDedup
  rw [mem_jsSetDedupAux]
  simp

theorem nodup_jsSetDedup (l : List String) : (jsSetDedup l).Nodup :=
  nodup_jsSetDedupAux l []

theorem mem_setNodeTags {a : String} {l : List String} : a ∈ setNodeTags l ↔ a ∈ l := by
  unfold setNodeTags
  rw [mem_sortTags, mem_jsSetDedup]

theorem sorted_setNodeTags (l : List String) : List.Sorted tagLe (setNodeTags l) :=
  sorted_sortTags (jsSetDedup l)

theorem nodup_setNodeTags (l : List String) : (setNodeTags l).Nodup :=
  nodup_sortTags (nodup_jsSetDedup l)

theorem contains_iff {l : List String} {a : String} : l.contains a = true ↔ a ∈ l :=
  List.elem_iff

theorem contains_eq_false {l : List String} {a : String} :
    l.contains a = false ↔ a ∉ l := by
  constructor
  · intro h hmem
    rw [contains_iff.2 hmem] at h
    cases h
  · intro h
    cases hc : l.contains a with
    | false => rfl
    | true => exact absurd (contains_iff.1 hc) h

theorem find?_map_upd (k : String) (v : TagMeta) :
    ∀ l : List (String × TagMeta), l.any (fun p => p.1 == k) = true →
      (l.map (fun p => if p.1 == k then (k, v) else p)).find? (fun p => p.1 == k)
        = some (k, v) := by
  intro l
  induction l with
  | nil => intro hl; simp at hl
  | cons p ps ih =>
    intro hl
    rw [List.map_cons]
    by_cases hp : (p.1 == k) = true
    · rw [if_pos hp]
      exact List.find?_cons_of_pos _ (by simp)
    · rw [if_neg hp]
      have hrw : List.find? (fun q => q.1 == k)
          (p :: ps.map (fun q => if q.1 == k then (k, v) else q))
          = List.find? (fun q => q.1 == k)
              (ps.map (fun q => if q.1 == k then (k, v) else q)) :=
        List.find?_cons_of_neg _ hp
      rw [hrw]
      apply ih
      simp only [List.any_cons, Bool.or_eq_true] at hl
      exact hl.resolve_left hp

theorem find?_append_new (k : String) (v : TagMeta) :
    ∀ l : List (String × TagMeta), l.any (fun p => p.1 == k) = false →
      (l ++ [(k, v)]).find? (fun p => p.1 == k) = some (k, v) := by
  intro l
  induction l with
  | nil =>
    intro _
    exact List.find?_cons_of_pos _ (by simp)
  | cons p ps ih =>
    intro hl
    rw [List.any_cons] at hl
    cases hval : (p.1 == k) with
    | true => rw [hval] at hl; simp at hl
    | false =>
      rw [List.cons_append, List.find?_cons_of_neg _ (by simp [hval])]
      apply ih
      rw [hval] at hl
      simpa using hl

theorem regGet_regSet (reg : Registry) (k : String) (v : TagMeta) :
    regGet (regSet reg k v) k = some v := by
  unfold regGet regSet
  by_cases h : reg.any (fun p => p.1 == k) = true
  · rw [if_pos h, find?_map_upd k v reg h]
    rfl
  · have hfalse : reg.any (fun p => p.1 == k) = false := by
      cases hb : reg.any (fun p => p.1 == k) with
      | false => rfl
      | true => exact absurd hb h
    rw [if_neg h, find?_append_new k v reg hfalse]
    rfl

theorem regDelete_idem (reg : Registry) (t : String) :
    regDelete (regDelete reg t) t = regDelete reg t := by
  unfold regDelete
  rw [List.filter_filter]
  exact List.filter_congr (fun p _ => by cases hp : p.1 == t <;> simp [hp])

theorem regDelete_absent {reg : Registry} {t : String} (h : regGet reg t = none) :
    regDelete reg t = reg := by
  have hfind : reg.find? (fun q => q.1 == t) = none := by
    cases hfind : reg.find? (fun q => q.1 == t) with
    | none => rfl
    | some q =>
      unfold regGet at h
      rw [hfind] at h
      simp at h
  have hall := List.find?_eq_none.mp hfind
  unfold regDelete
  apply List.filter_eq_self.mpr
  intro p hp
  have hnp := hall p hp
  cases hq : (p.1 == t) with
  | true => exact absurd hq hnp
  | false => rfl

theorem not_mem_stripTagEntry (t : String) (e : String × List String) :
    t ∉ (stripTagEntry t e).2 := by
  unfold stripTagEntry
  by_cases hc : e.2.contains t = true
  · rw [if_pos hc]
    intro hmem
    rw [mem_setNodeTags] at hmem
    have := (List.mem_filter.1 hmem).2
    simp at this
  · rw [if_neg hc]
    exact contains_eq_false.1 (by simpa using hc)

theorem stripTagEntry_of_not_contains {t : String} {e : String × List String}
    (h : e.2.contains t = false) : stripTagEntry t e = e := by
  unfold stripTagEntry
  rw [if_neg (fun hc => by rw [h] at hc; exact Bool.noConfusion hc)]

theorem stripTagEntry_idem (t : String) (e : String × List String) :
    stripTagEntry t (stripTagEntry t e) = stripTagEntry t e :=
  stripTagEntry_of_not_contains (contains_eq_false.2 (not_mem_stripTagEntry t e))

theorem mem_removeNodeTags {tags cur : List String} {x : String} :
    x ∈ removeNodeTags tags cur ↔ x ∈ cur ∧ x ∉ tags := by
  unfold removeNodeTags
  rw [mem_setNodeTags, List.mem_filter]
  constructor
  · rintro ⟨h1, h2⟩
    refine ⟨h1, ?_⟩
    cases hc : tags.contains x with
    | false => exact contains_eq_false.1 hc
    | true => rw [hc] at h2; exact Bool.noConfusion h2
  · rintro ⟨h1, h2⟩
    refine ⟨h1, ?_⟩
    rw [contains_eq_false.2 h2]
    rfl

/-!
## Claim theorems
-/

/-- Claim C1 (code bug): evaluating `mergeTags` at the failing inputs.  With
registry `a ↦ red, b ↦ blue`, merging `b` into `a` leaves `a ↦ blue` — the
source metadata overwrote `a`'s already-set `color`, where the claim (and
the code's own comment, `fold metadata (first non-empty wins)`) requires
`a ↦ red`.  And with `into = "a"` itself a member of `fromList`, the merge
deletes `a`'s registry entry outright, where the claim requires an entry
for `into` to survive. -/
theorem mergeTags_divergence_eval :
    (mergeTags ⟨[("a", ⟨some "red", none⟩), ("b", ⟨some "blue", none⟩)], []⟩
        "a" ["b"]).1.registry = [("a", ⟨some "blue", none⟩)]
    ∧ (mergeTags ⟨[("a", {})], []⟩ "a" ["a"]).1.registry = [] := by
  exact ⟨by decide, by decide⟩

/-- Claim C3, counterexample: the React assign path stores an unsorted tag
list.  A node tagged `["b"]` bulk-assigned `["a"]` yields `["b", "a"]`,
which `handleSetNodeTags` persists verbatim — not sorted ascending. -/
theorem bulkAdd_store_unsorted :
    handleSetNodeTags (bulkAddTags ["b"] ["a"]) = ["b", "a"]
    ∧ ¬ List.Sorted tagLe (handleSetNodeTags (bulkAddTags ["b"] ["a"])) := by
  exact ⟨by decide, by decide⟩

/-- Claim C3, amended: every store performed by the MVP plugin goes through
`setNodeTags` and is therefore sorted ascending and duplicate-free, while
the React bulk-assign path deduplicates (via `new Set`) but does not sort
what `handleSetNodeTags` persists. -/
theorem tagSet_normalization_amended :
    (∀ tags : List String,
        List.Sorted tagLe (setNodeTags tags) ∧ (setNodeTags tags).Nodup)
    ∧ ∀ cur tags : List String, (handleSetNodeTags (bulkAddTags cur tags)).Nodup :=
  ⟨fun tags => ⟨sorted_setNodeTags tags, nodup_setNodeTags tags⟩,
   fun cur tags => nodup_jsSetDedup (cur ++ tags)⟩

/-- Claim C4 (code bug): evaluating `renameTagEverywhere` at the failing
input.  Renaming `t` to itself on registry `t ↦ red` executes
`reg[to] = ...` followed by `delete reg[from]` with `from == to`, so the
entry for `t` is deleted — the claim (and the spec's `no-op if from == to`)
requires the registry to keep `t ↦ red`.  Node tag sets are unchanged. -/
theorem renameTag_self_deletes_registry_eval :
    renameTagEverywhere ⟨[("t", ⟨some "red", none⟩)], [("1", ["t"])]⟩ "t" "t"
      = (⟨[], [("1", ["t"])]⟩, 1) := by decide

/-- Claim C5: renaming `from` to `to` on an object tagged with both (with
`from ≠ to`) yields a tag set holding `to` exactly once and no `from`: the
`map` swap may duplicate `to`, but `setNodeTags` dedups on store. -/
theorem renameTag_set_safe (f t : String) (tags : List String)
    (hf : f ∈ tags) (_ht : t ∈ tags) (hne : f ≠ t) :
    (renameNodeTags f t tags).count t = 1 ∧ f ∉ renameNodeTags f t tags := by
  have hmemt : t ∈ tags.map (fun x => if x = f then t else x) :=
    List.mem_map.2 ⟨f, hf, by simp⟩
  have hnot : f ∉ tags.map (fun x => if x = f then t else x) := by
    intro hmem
    rcases List.mem_map.1 hmem with ⟨x, hx, hxe⟩
    by_cases hxf : x = f
    · rw [if_pos hxf] at hxe
      exact hne hxe.symm
    · rw [if_neg hxf] at hxe
      exact hxf hxe
  constructor
  · have hmem' : t ∈ renameNodeTags f t tags := by
      unfold renameNodeTags
      rw [mem_setNodeTags]
      exact hmemt
    exact List.count_eq_one_of_mem (nodup_setNodeTags _) hmem'
  · intro hmem
    unfold renameNodeTags at hmem
    rw [mem_setNodeTags] at hmem
    exact hnot hmem

/-- Witness for C5 at a concrete rename. -/
theorem renameTag_set_safe_witness :
    (renameNodeTags "a" "b" ["a", "b"]).count "b" = 1
    ∧ "a" ∉ renameNodeTags "a" "b" ["a", "b"] :=
  renameTag_set_safe "a" "b" ["a", "b"] (by decide) (by decide) (by decide)

/-- Claim C9: `removeTagsFromSelection` takes the set difference of each
selected node's tags with the removal list (absent tags ignored), and
Scenario B produces exactly `(["a"], count 1)`. -/
theorem removeTags_set_difference :
    (∀ (tags cur : List String) (x : String),
        x ∈ removeNodeTags tags cur ↔ x ∈ cur ∧ x ∉ tags)
    ∧ removeTagsFromSelection [("1", ["a", "b"])] ["b", "c"] = ([("1", ["a"])], 1) :=
  ⟨fun _ _ _ => mem_removeNodeTags, by decide⟩

/-- Claim C10: the `updated` counter of both selection-scoped operations
always equals the number of selected nodes — each loop iteration increments
unconditionally, and the empty-selection early return yields 0. -/
theorem selection_counts_eq_length (sel : List (String × List String))
    (tags : List String) :
    (addTagsToSelection sel tags).2 = sel.length
    ∧ (removeTagsFromSelection sel tags).2 = sel.length := by
  cases sel with
  | nil => exact ⟨rfl, rfl⟩
  | cons e es => exact ⟨rfl, rfl⟩

/-- Claim C6: the `delete-tag` handler is idempotent on the full state,
is a registry no-op when the tag is absent, and leaves no node referencing
the deleted tag. -/
theorem deleteTag_idempotent_cascade (st : PluginState) (t : String) :
    deleteTagMsg (deleteTagMsg st t) t = deleteTagMsg st t
    ∧ (regGet st.registry t = none → (deleteTagMsg st t).registry = st.registry)
    ∧ ∀ e ∈ (deleteTagMsg st t).index, t ∉ e.2 := by
  refine ⟨?_, ?_, ?_⟩
  · simp only [deleteTagMsg]
    congr 1
    · exact regDelete_idem st.registry t
    · rw [List.map_map]
      exact List.map_congr_left (fun e _ => stripTagEntry_idem t e)
  · intro h
    exact regDelete_absent h
  · intro e he
    rcases List.mem_map.1 he with ⟨e0, _, rfl⟩
    exact not_mem_stripTagEntry t e0

/-- Witness for C6 at a concrete state whose registry lacks the tag while a
node still carries it. -/
theorem deleteTag_idempotent_cascade_witness :
    deleteTagMsg (deleteTagMsg ⟨[("a", {})], [("1", ["x", "a"])]⟩ "x") "x"
        = deleteTagMsg ⟨[("a", {})], [("1", ["x", "a"])]⟩ "x"
    ∧ (deleteTagMsg ⟨[("a", {})], [("1", ["x", "a"])]⟩ "x").registry = [("a", {})]
    ∧ "x" ∉ (["a"] : List String) :=
  ⟨(deleteTag_idempotent_cascade ⟨[("a", {})], [("1", ["x", "a"])]⟩ "x").1,
   (deleteTag_idempotent_cascade ⟨[("a", {})], [("1", ["x", "a"])]⟩ "x").2.1 (by decide),
   (deleteTag_idempotent_cascade ⟨[("a", {})], [("1", ["x", "a"])]⟩ "x").2.2
     ("1", ["a"]) (by decide)⟩

/-- Claim C2, counterexample: the MVP create path (`create-tag` message →
`ensureTagInRegistry`) does not fail on a duplicate name — it merges the
provided metadata into the existing entry, mutating the registry. -/
theorem ensureTagInRegistry_duplicate_mutates :
    ensureTagInRegistry [("a", ⟨some "red", none⟩)] "a" (some ⟨none, some "x"⟩)
        = [("a", ⟨some "red", some "x"⟩)]
    ∧ ensureTagInRegistry [("a", ⟨some "red", none⟩)] "a" (some ⟨none, some "x"⟩)
        ≠ [("a", ⟨some "red", none⟩)] := ⟨by decide, by decide⟩

/-- Claim C2, amended: the React create path (`handleAddTag`) reports the
duplicate error and leaves the registry unchanged on an existing trimmed
name, and inserts the provided (or empty) metadata on a fresh one; the MVP
path (`ensureTagInRegistry`) instead never fails and folds the provided
metadata over whatever entry exists. -/
theorem createTag_duplicate_check_amended :
    (∀ (reg : Registry) (nt ne nc : String),
        jsTrim nt ≠ "" → (regGet reg (jsTrim nt)).isSome = true →
          handleAddTag reg nt ne nc = ⟨reg, true⟩)
    ∧ (∀ (reg : Registry) (nt ne nc : String),
        jsTrim nt ≠ "" → regGet reg (jsTrim nt) = none →
          handleAddTag reg nt ne nc = ⟨regSet reg (jsTrim nt) (metaOfInputs ne nc), false⟩)
    ∧ ∀ (reg : Registry) (tag : String) (m : TagMeta),
        regGet (ensureTagInRegistry reg tag (some m)) tag
          = some (spreadMeta ((regGet reg tag).getD {}) m) := by
  refine ⟨?_, ?_, ?_⟩
  · intro reg nt ne nc hne hsome
    simp only [handleAddTag]
    rw [if_neg hne, if_pos hsome]
  · intro reg nt ne nc hne hnone
    simp only [handleAddTag]
    rw [if_neg hne, if_neg (fun hc => by rw [hnone] at hc; exact Bool.noConfusion hc)]
  · intro reg tag m
    simp only [ensureTagInRegistry]
    by_cases h : (regGet reg tag).isSome = true
    · rw [if_pos h]
      exact regGet_regSet _ _ _
    · have hnone : regGet reg tag = none := by
        cases ho : regGet reg tag with
        | none => rfl
        | some v => rw [ho] at h; exact absurd rfl h
      rw [if_neg h, regGet_regSet reg tag ({} : TagMeta), regGet_regSet, hnone]
      rfl

/-- Witness for C2's amended statement at concrete registries. -/
theorem createTag_duplicate_check_witness :
    handleAddTag [("a", ⟨some "red", none⟩)] "a" "" "#9ca3af"
        = ⟨[("a", ⟨some "red", none⟩)], true⟩
    ∧ handleAddTag [("a", ⟨some "red", none⟩)] "b" "" "#9ca3af"
        = ⟨[("a", ⟨some "red", none⟩), ("b", {})], false⟩
    ∧ regGet (ensureTagInRegistry [("a", ⟨some "red", none⟩)] "a"
        (some ⟨none, some "x"⟩)) "a" = some ⟨some "red", some "x"⟩ :=
  ⟨createTag_duplicate_check_amended.1 [("a", ⟨some "red", none⟩)] "a" "" "#9ca3af"
     (by decide) (by decide),
   createTag_duplicate_check_amended.2.1 [("a", ⟨some "red", none⟩)] "b" "" "#9ca3af"
     (by decide) (by decide),
   createTag_duplicate_check_amended.2.2 [("a", ⟨some "red", none⟩)] "a" ⟨none, some "x"⟩⟩

theorem strDataAppend (s t : String) : (s ++ t).data = s.data ++ t.data := rfl

theorem strEqOfData {s t : String} (h : s.data = t.data) : s = t := by
  cases s
  cases t
  exact congrArg String.mk h

theorem escQuotesL_of_no_quote : ∀ {l : List Char}, '\x22' ∉ l → escQuotesL l = l := by
  intro l
  induction l with
  | nil => intro _; rfl
  | cons c cs ih =>
    intro h
    unfold escQuotesL
    rw [if_neg (fun hc : c = '\x22' => h (hc ▸ List.mem_cons_self c cs)),
        ih (fun hm => h (List.mem_cons_of_mem _ hm))]

theorem escQuotes_of_no_quote {s : String} (h : '\x22' ∉ s.data) : escQuotes s = s := by
  unfold escQuotes
  rw [escQuotesL_of_no_quote h]

theorem no_quote_append {s t : String} (hs : '\x22' ∉ s.data) (ht : '\x22' ∉ t.data) :
    '\x22' ∉ (s ++ t).data := by
  rw [strDataAppend]
  intro hmem
  rcases List.mem_append.1 hmem with h | h
  · exact hs h
  · exact ht h

theorem no_quote_joinSep : ∀ {l : List String}, (∀ t ∈ l, '\x22' ∉ t.data) →
    '\x22' ∉ (joinSep "|" l).data := by
  intro l
  induction l with
  | nil => intro _ hmem; exact absurd hmem (List.not_mem_nil _)
  | cons x xs ih =>
    intro h
    cases xs with
    | nil => exact h x (List.mem_cons_self _ _)
    | cons y ys =>
      have hx := h x (List.mem_cons_self _ _)
      have hrest : ∀ t ∈ y :: ys, '\x22' ∉ t.data :=
        fun t ht => h t (List.mem_cons_of_mem _ ht)
      have hbar : '\x22' ∉ ("|" : String).data := by decide
      exact no_quote_append (no_quote_append hx hbar) (ih hrest)

/-- Claim C7, counterexample: a tag containing a double quote is emitted
verbatim inside its quoted CSV field — the internal quote is not doubled,
so the row differs from the fully-escaped row the claim predicts. -/
theorem exportToCSV_tag_quote_unescaped :
    exportToCSV [⟨"1", "n", "text", ["a\"b"]⟩]
        = "nodeId,nodeName,nodeType,tags\n\"1\",\"n\",\"text\",\"a\"b\""
    ∧ exportToCSV [⟨"1", "n", "text", ["a\"b"]⟩]
        ≠ joinSep "\n" ["nodeId,nodeName,nodeType,tags",
            claimRowSpec ⟨"1", "n", "text", ["a\"b"]⟩] := ⟨by decide, by decide⟩

/-- Claim C7, amended: Scenario D is produced exactly as the claim states,
and a row coincides with the fully-escaped form whenever the id, the type
and every tag are quote-free (the name is always escaped); only a double
quote inside a tag (or id/type) escapes unescaped. -/
theorem exportToCSV_escaping_amended :
    exportToCSV [⟨"1", "Say \"hi\"", "text", ["a"]⟩]
        = "nodeId,nodeName,nodeType,tags\n\"1\",\"Say \"\"hi\"\"\",\"text\",\"a\""
    ∧ ∀ n : CsvNode, '\x22' ∉ n.id.data → '\x22' ∉ n.type.data →
        (∀ t ∈ n.tags, '\x22' ∉ t.data) → csvRow n = claimRowSpec n := by
  refine ⟨by decide, ?_⟩
  intro n h1 h2 h3
  unfold csvRow claimRowSpec csvQuoteSpec
  rw [escQuotes_of_no_quote h1, escQuotes_of_no_quote h2,
      escQuotes_of_no_quote (no_quote_joinSep h3)]
  apply strEqOfData
  have d1 : ("\"" : String).data = ['\x22'] := rfl
  have d2 : ("\",\"" : String).data = ['\x22', ',', '\x22'] := rfl
  have d3 : ("," : String).data = [','] := rfl
  simp only [strDataAppend, d1, d2, d3]
  simp [List.append_assoc]

/-- Witness for C7's amended statement at the Scenario D node. -/
theorem exportToCSV_escaping_witness :
    csvRow ⟨"1", "Say \"hi\"", "text", ["a"]⟩
      = claimRowSpec ⟨"1", "Say \"hi\"", "text", ["a"]⟩ :=
  exportToCSV_escaping_amended.2 ⟨"1", "Say \"hi\"", "text", ["a"]⟩
    (by decide) (by decide) (by decide)

/-- Claim C8, counterexample: `"{"` is not parsable JSON (`jsonParse`
rejects it), and `part_000`'s `getTagRegistry` propagates the resulting
`SyntaxError` to its caller instead of returning the empty registry. -/
theorem getTagRegistry_unparsable_raises :
    jsonParse "\x7b" = none
    ∧ getTagRegistry "\x7b" = Except.error "SyntaxError" := ⟨rfl, rfl⟩

/-- Claim C8, amended: the MVP loaders (`getRegistry`, `getNodeTags`) are
total and return the empty registry/list on a missing or unparsable blob;
`part_000`'s loaders return the empty value on a missing blob but raise on
an unparsable one. -/
theorem blob_loading_amended :
    (∀ raw : String, raw = "" → getRegistry raw = Json.obj [])
    ∧ (∀ raw : String, jsonParse raw = none → getRegistry raw = Json.obj [])
    ∧ (∀ raw : String, raw = "" → getNodeTagsMvp raw = Json.arr [])
    ∧ (∀ raw : String, jsonParse raw = none → getNodeTagsMvp raw = Json.arr [])
    ∧ getTagRegistry "" = Except.ok (Json.obj [])
    ∧ getNodeTagsPart0 "" = Except.ok (Json.arr [])
    ∧ ∀ raw : String, raw ≠ "" → jsonParse raw = none →
        getTagRegistry raw = Except.error "SyntaxError" := by
  refine ⟨?_, ?_, ?_, ?_, rfl, rfl, ?_⟩
  · intro raw h
    unfold getRegistry
    rw [if_pos h]
  · intro raw h
    unfold getRegistry
    by_cases he : raw = ""
    · rw [if_pos he]
    · rw [if_neg he, h]
  · intro raw h
    unfold getNodeTagsMvp
    rw [if_pos h]
  · intro raw h
    unfold getNodeTagsMvp
    by_cases he : raw = ""
    · rw [if_pos he]
    · rw [if_neg he, h]
  · intro raw hne h
    unfold getTagRegistry
    rw [if_neg hne, h]

/-- Witness for C8's amended statement at the unparsable blob. -/
theorem blob_loading_witness :
    getRegistry "\x7b" = Json.obj []
    ∧ getNodeTagsMvp "\x7b" = Json.arr []
    ∧ getRegistry "" = Json.obj [] :=
  ⟨blob_loading_amended.2.1 "\x7b" rfl,
   blob_loading_amended.2.2.2.1 "\x7b" rfl,
   blob_loading_amended.1 "" rfl⟩
